import Mathlib

/-!
Shallow embedding of the dnd5e item engine (`src/module/documents/item.mjs`):
the damage-scaling engine (`_scaleCantripDamage`, `_scaleSpellDamage`,
`_scaleDamage`), the advancement index (`_prepareAdvancement`), the critical
threshold calculator (`getCriticalThreshold`), and the usage resolver
(`_getUsageUpdates`, `_handleConsumeResource`), together with theorems that
settle the specification claims about them.

Roll formulas are strings in the source, parsed by the external Foundry `Roll`
class into a list of terms.  We embed a formula directly as its parsed term
list, with `+`-joining understood: string concatenation with `" + "` becomes
list concatenation, and joining the parts with `" + "` becomes `List.flatten`.
-/

namespace Dnd5e

/-- A parsed term of a roll formula, mirroring Foundry's `Die` and
`NumericTerm` classes: a die term carries its count (`number`), its
`faces`, and its `modifiers` list; a numeric term carries its value. -/
inductive RollTerm where
  | die (number : Int) (faces : Int) (modifiers : List String)
  | num (value : Int)
  deriving DecidableEq

/-- A damage/scaling formula as its parsed list of `+`-joined terms. -/
abbrev Formula := List RollTerm

/-- `Roll#alter(times)` applied to one term: a die term's count is multiplied
by `times`; numeric terms are unchanged (Foundry's `multiplyNumeric` option
defaults to `false`). -/
def alterTerm (times : Int) : RollTerm → RollTerm
  | .die n f m => .die (n * times) f m
  | .num v => .num v

/-- `new Roll(scaling).alter(times)` (item.mjs line 1609): every die term's
count is multiplied by `times`. -/
def alterFormula (scaling : Formula) (times : Int) : Formula :=
  scaling.map (alterTerm times)

/-- `Item5e#_scaleDamage(parts, scaling, times)` (item.mjs lines 1606-1626).
Returns the damage parts with the scaling applied: no-op when `times <= 0`;
otherwise the scaling formula is altered by `times` and merged into the first
part when it is a single die term whose faces and modifiers match the first
term of the first part (die counts added), else appended to the first part
with `" + "`.  (On an empty parts list the source would fault dereferencing
`parts[0]`; both callers pass the item's non-empty damage parts.) -/
def scaleDamage (parts : List Formula) (scaling : Formula) (times : Int) :
    List Formula :=
  if times ≤ 0 then parts else
  match parts with
  | [] => []
  | p0 :: rest =>
    let s := alterFormula scaling times
    match s, p0 with
    | [.die ns fs ms], .die n0 f0 m0 :: p0tail =>
      if f0 = fs ∧ m0 = ms then (.die (n0 + ns) f0 m0 :: p0tail) :: rest
      else (p0 ++ s) :: rest
    | _, _ => (p0 ++ s) :: rest

/-- The cantrip add count `Math.floor((level + 1) / 6)` (item.mjs line 1572). -/
def scaleCantripAdd (level : Int) : Int :=
  (level + 1).fdiv 6

/-- `Item5e#_scaleCantripDamage(parts, scale, level)` (item.mjs lines
1571-1575), viewed by its effect on the caller's `parts` array: when the add
count is zero the function returns early and `parts` is untouched; otherwise
it equals `_scaleDamage` on the scale formula, falling back to the joined
parts when the scale formula is falsy, which
mutates `parts` in place.  The caller (line 1503) discards the return value
and keeps using `parts`, so this is the behaviourally relevant view.
`scale = none` models a falsy (empty/absent) scaling formula. -/
def scaleCantripDamage (parts : List Formula) (scale : Option Formula)
    (level : Int) : List Formula :=
  let add := scaleCantripAdd level
  if add = 0 then parts
  else scaleDamage parts (scale.getD parts.flatten) add

/-- The literal return value of `_scaleCantripDamage`: `[]` when the add
count is zero (line 1573 is `return [];`), else the scaled parts. -/
def scaleCantripDamageRet (parts : List Formula) (scale : Option Formula)
    (level : Int) : List Formula :=
  let add := scaleCantripAdd level
  if add = 0 then []
  else scaleDamage parts (scale.getD parts.flatten) add

/-- `Item5e#_scaleSpellDamage(parts, baseLevel, spellLevel, formula)`
(item.mjs lines 1589-1593): `upcastLevels = Math.max(spellLevel - baseLevel,
0)`; parts returned unchanged when zero, else scaled `upcastLevels` times. -/
def scaleSpellDamage (parts : List Formula) (baseLevel spellLevel : Int)
    (formula : Formula) : List Formula :=
  let upcastLevels := max (spellLevel - baseLevel) 0
  if upcastLevels = 0 then parts
  else scaleDamage parts formula upcastLevels

/-- C5: `_scaleDamage(parts, scalingFormula, times)` is a no-op when
`times ≤ 0`; when `times > 0` it multiplies the scaling formula by `times`
(every die count scaled, via `alterFormula`) and, when the scaled formula is
a single die term whose face count and modifiers equal those of the first
(die) term of the first damage part, merges it by adding the die counts into
that first part; otherwise it appends the scaled formula to the first part
as a separate `" + "`-joined term. -/
theorem claim_C5_scale_damage_primitive :
    (∀ (parts : List Formula) (scaling : Formula) (times : Int),
      times ≤ 0 → scaleDamage parts scaling times = parts)
    ∧ (∀ (rest : List Formula) (scaling : Formula) (times ns fs n0 : Int)
        (ms : List String) (tl : Formula), 0 < times →
        alterFormula scaling times = [.die ns fs ms] →
        scaleDamage ((RollTerm.die n0 fs ms :: tl) :: rest) scaling times
          = (RollTerm.die (n0 + ns) fs ms :: tl) :: rest)
    ∧ (∀ (p0 : Formula) (rest : List Formula) (scaling : Formula) (times : Int),
        0 < times →
        (¬ ∃ (ns fs n0 : Int) (ms : List String) (tl : Formula),
          alterFormula scaling times = [.die ns fs ms] ∧
          p0 = RollTerm.die n0 fs ms :: tl) →
        scaleDamage (p0 :: rest) scaling times
          = (p0 ++ alterFormula scaling times) :: rest) := by
  refine ⟨?_, ?_, ?_⟩
  · intro parts scaling times h
    simp [scaleDamage, h]
  · intro rest scaling times ns fs n0 ms tl ht halter
    simp only [scaleDamage, if_neg (by omega : ¬ times ≤ 0)]
    rw [halter]
    simp
  · intro p0 rest scaling times ht hnot
    simp only [scaleDamage, if_neg (by omega : ¬ times ≤ 0)]
    rcases halter : alterFormula scaling times with _ | ⟨t, ts⟩
    · rcases p0 with _ | ⟨u, us⟩ <;> simp
    · rcases t with ⟨ns, fs, ms⟩ | v
      · rcases ts with _ | ⟨t2, ts2⟩
        · rcases p0 with _ | ⟨u, us⟩
          · simp
          · rcases u with ⟨n0, f0, m0⟩ | v0
            · simp only []
              by_cases hc : f0 = fs ∧ m0 = ms
              · exact absurd ⟨ns, fs, n0, ms, us, halter, by rw [hc.1, hc.2]⟩ hnot
              · simp [hc]
            · simp
        · rcases p0 with _ | ⟨u, us⟩ <;> simp
      · rcases p0 with _ | ⟨u, us⟩ <;> simp

/-- C5 witness: concrete instances of each branch of the `_scaleDamage`
characterization: a no-op at `times = 0`, a merge of `2d6` scaled once into
`1d6 + 4`, and an append of a non-mergeable scaled formula. -/
theorem claim_C5_scale_damage_primitive_witness :
    scaleDamage [[RollTerm.die 1 6 []]] [RollTerm.die 1 8 []] 0
        = [[RollTerm.die 1 6 []]]
    ∧ scaleDamage [[RollTerm.die 1 6 [], RollTerm.num 4]] [RollTerm.die 2 6 []] 1
        = [[RollTerm.die 3 6 [], RollTerm.num 4]]
    ∧ scaleDamage [[RollTerm.die 1 6 []]] [RollTerm.die 1 8 []] 1
        = [[RollTerm.die 1 6 [], RollTerm.die 1 8 []]] :=
  ⟨claim_C5_scale_damage_primitive.1 _ _ _ (by decide),
   claim_C5_scale_damage_primitive.2.1 [] [RollTerm.die 2 6 []] 1 2 6 1 []
     [RollTerm.num 4] (by decide) (by decide),
   claim_C5_scale_damage_primitive.2.2 [RollTerm.die 1 6 []] [] [RollTerm.die 1 8 []]
     1 (by decide)
     (by
       rintro ⟨ns, fs, n0, ms, tl, h1, h2⟩
       simp [alterFormula, alterTerm] at h1
       simp_all
       omega)⟩

/-- C3 counterexample: the claim computes the cantrip add count as the
caster's level divided by 6 rounded down, which at level 5 is 0; the code
(`Math.floor((level + 1) / 6)`, item.mjs line 1572) yields 1 at level 5
(as the claim's own example expects), so the claimed formula disagrees with
the code. -/
theorem claim_C3_counterexample :
    scaleCantripAdd 5 = 1 ∧ (5 : Int).fdiv 6 = 0 ∧
    scaleCantripAdd 5 ≠ (5 : Int).fdiv 6 := by
  decide

/-- C3 (amended): cantrip damage scaling computes the add count as
`(level + 1)` divided by 6 rounded down, so level 5 yields 1 and level 0
yields 0; whenever the add count is 0 the scaling is not applied and the
caller's damage parts are unchanged in effect (the function's literal return
value is then the empty list, which the only caller discards); otherwise the
parts are scaled `add` times with the scaling formula (falling back to the
joined parts when no formula is configured). -/
theorem claim_C3_cantrip_scaling :
    scaleCantripAdd 5 = 1 ∧ scaleCantripAdd 0 = 0
    ∧ (∀ (parts : List Formula) (scale : Option Formula) (level : Int),
        scaleCantripAdd level = 0 →
        scaleCantripDamage parts scale level = parts
          ∧ scaleCantripDamageRet parts scale level = [])
    ∧ (∀ (parts : List Formula) (scale : Option Formula) (level : Int),
        scaleCantripAdd level ≠ 0 →
        scaleCantripDamage parts scale level
          = scaleDamage parts (scale.getD parts.flatten) (scaleCantripAdd level)) := by
  refine ⟨by decide, by decide, ?_, ?_⟩
  · intro parts scale level h
    simp [scaleCantripDamage, scaleCantripDamageRet, h]
  · intro parts scale level h
    simp [scaleCantripDamage, h]

/-- C3 witness: at level 0 the add count is 0 and a concrete parts list is
left unchanged; at level 5 the add count is 1 and `1d10` with scaling `1d10`
becomes `2d10`. -/
theorem claim_C3_cantrip_scaling_witness :
    scaleCantripDamage [[RollTerm.die 1 10 []]] none 0 = [[RollTerm.die 1 10 []]]
    ∧ scaleCantripDamage [[RollTerm.die 1 10 []]] none 5 = [[RollTerm.die 2 10 []]] :=
  ⟨(claim_C3_cantrip_scaling.2.2.1 [[RollTerm.die 1 10 []]] none 0 (by decide)).1,
   by
    have h := claim_C3_cantrip_scaling.2.2.2 [[RollTerm.die 1 10 []]] none 5 (by decide)
    rw [h]
    decide⟩

/-- C4: spell upcast scaling computes `upcastLevels = max(castLevel -
baseLevel, 0)` and applies the scaling formula exactly `upcastLevels` times
via `_scaleDamage`: at base level 3 and cast level 3 (or any cast level not
above base) the parts are returned unchanged, and at base level 3 and cast
level 5 the result is `_scaleDamage` with `times = 2`; concretely `2d6` with
scaling formula `1d6` upcast from 3 to 5 gains two dice, becoming `4d6`. -/
theorem claim_C4_spell_upcast :
    (∀ (parts : List Formula) (f : Formula) (baseLevel spellLevel : Int),
      spellLevel - baseLevel ≤ 0 →
      scaleSpellDamage parts baseLevel spellLevel f = parts)
    ∧ (∀ (parts : List Formula) (f : Formula),
        scaleSpellDamage parts 3 3 f = parts)
    ∧ (∀ (parts : List Formula) (f : Formula) (baseLevel spellLevel : Int),
        0 < spellLevel - baseLevel →
        scaleSpellDamage parts baseLevel spellLevel f
          = scaleDamage parts f (spellLevel - baseLevel))
    ∧ (∀ (parts : List Formula) (f : Formula),
        scaleSpellDamage parts 3 5 f = scaleDamage parts f 2)
    ∧ scaleSpellDamage [[RollTerm.die 2 6 []]] 3 5 [RollTerm.die 1 6 []]
        = [[RollTerm.die 4 6 []]] := by
  have hgen : ∀ (parts : List Formula) (f : Formula) (baseLevel spellLevel : Int),
      0 < spellLevel - baseLevel →
      scaleSpellDamage parts baseLevel spellLevel f
        = scaleDamage parts f (spellLevel - baseLevel) := by
    intro parts f b s h
    have hmax : max (s - b) 0 = s - b := by omega
    simp only [scaleSpellDamage, hmax, if_neg (by omega : ¬ s - b = 0)]
  refine ⟨?_, ?_, hgen, ?_, ?_⟩
  · intro parts f b s h
    have hmax : max (s - b) 0 = 0 := by omega
    simp [scaleSpellDamage, hmax]
  · intro parts f
    simp [scaleSpellDamage]
  · intro parts f
    exact hgen parts f 3 5 (by decide)
  · rw [hgen _ _ 3 5 (by decide)]
    decide

/-- C4 witness: upcasting from base level 3 to cast level 3 leaves a concrete
parts list unchanged, and upcasting to cast level 5 applies the scaling
formula twice. -/
theorem claim_C4_spell_upcast_witness :
    scaleSpellDamage [[RollTerm.die 2 6 []]] 3 3 [RollTerm.die 1 6 []]
        = [[RollTerm.die 2 6 []]]
    ∧ scaleSpellDamage [[RollTerm.die 2 6 []]] 3 5 [RollTerm.die 1 6 []]
        = scaleDamage [[RollTerm.die 2 6 []]] [RollTerm.die 1 6 []] 2 :=
  ⟨claim_C4_spell_upcast.1 [[RollTerm.die 2 6 []]] [RollTerm.die 1 6 []] 3 3
     (by decide),
   claim_C4_spell_upcast.2.2.1 [[RollTerm.die 2 6 []]] [RollTerm.die 1 6 []] 3 5
     (by decide)⟩

/-! ## Advancement index (`_prepareAdvancement`, item.mjs lines 452-473) -/

/-- A stored advancement record.  `valid` models the `instanceof Advancement`
check (line 463): stale/foreign entries are skipped.  `sortKey` models the
external `Advancement#sortingValueForLevel` API consulted when sorting each
level bucket. -/
structure Advancement where
  valid : Bool
  id : String
  atype : String
  levels : List Nat
  sortKey : Nat → String

/-- The four lookup structures built by `_prepareAdvancement`.  JS objects
keyed by id/level/type are modelled as functions returning `none` for absent
keys. -/
structure AdvancementIndex where
  byId : String → Option Advancement
  byLevel : Nat → Option (List Advancement)
  byType : String → Option (List Advancement)
  needingConfiguration : List Advancement

/-- `advancement.levels.forEach(l => this.advancement.byLevel[l].push(...))`
(line 467): each level of the advancement is pushed onto its bucket; a level
with no bucket (outside the prepared range) faults in the source
(`undefined.push`), modelled as `none`. -/
def pushLevels (bl : Nat → Option (List Advancement)) :
    List Nat → Advancement → Option (Nat → Option (List Advancement))
  | [], _ => some bl
  | l :: ls, a =>
    match bl l with
    | none => none
    | some b => pushLevels (fun l' => if l' = l then some (b ++ [a]) else bl l') ls a

/-- The body of the `for ( const advancement of ... )` loop (lines 462-469)
for one advancement record: invalid records are skipped; valid ones are
registered in `byId` and `byType`, pushed onto each of their level buckets,
and collected in `needingConfiguration` when their level set is empty. -/
def addAdvancement (idx : AdvancementIndex) (a : Advancement) :
    Option AdvancementIndex :=
  if a.valid = false then some idx
  else
    match pushLevels idx.byLevel a.levels a with
    | none => none
    | some bl =>
      some { byId := fun k => if k = a.id then some a else idx.byId k
             byLevel := bl
             byType := fun k =>
               if k = a.atype then some ((idx.byType k).getD [] ++ [a])
               else idx.byType k
             needingConfiguration :=
               if a.levels = [] then idx.needingConfiguration ++ [a]
               else idx.needingConfiguration }

/-- The advancement loop over the whole stored list. -/
def buildIndex (idx : AdvancementIndex) : List Advancement → Option AdvancementIndex
  | [] => some idx
  | a :: rest =>
    match addAdvancement idx a with
    | none => none
    | some idx' => buildIndex idx' rest

/-- The initially empty index (lines 454-461): `byLevel` has an empty bucket
for every level from `minAdvancementLevel` (1 for class/subclass items, else
0) up to the configured maximum level, and nothing else. -/
def initIndex (itemType : String) (maxLevel : Nat) : AdvancementIndex where
  byId := fun _ => none
  byLevel := fun l =>
    let minLevel := if itemType = "class" ∨ itemType = "subclass" then 1 else 0
    if minLevel ≤ l ∧ l ≤ maxLevel then some [] else none
  byType := fun _ => none
  needingConfiguration := []

/-- The final per-bucket stable sort (lines 470-472) by each advancement's
kind-specific sorting value at that level (string comparison; ties keep the
prior relative order, as JS `Array#sort` is stable). -/
def sortIndex (idx : AdvancementIndex) : AdvancementIndex :=
  { idx with byLevel := fun l =>
      (idx.byLevel l).map (·.mergeSort (fun a b => a.sortKey l ≤ b.sortKey l)) }

/-- `Item5e#_prepareAdvancement` (item.mjs lines 452-473), parameterized by
the item's type, the configured maximum character level
(`CONFIG.DND5E.maxLevel`), and the stored advancement list. -/
def prepareAdvancement (itemType : String) (maxLevel : Nat)
    (advs : List Advancement) : Option AdvancementIndex :=
  (buildIndex (initIndex itemType maxLevel) advs).map sortIndex

theorem pushLevels_nil (bl : Nat → Option (List Advancement)) (a : Advancement) :
    pushLevels bl [] a = some bl := rfl

theorem pushLevels_cons (bl : Nat → Option (List Advancement)) (hd : Nat)
    (tl : List Nat) (a : Advancement) :
    pushLevels bl (hd :: tl) a =
      match bl hd with
      | none => none
      | some b =>
        pushLevels (fun l' => if l' = hd then some (b ++ [a]) else bl l') tl a := rfl

theorem pushLevels_spec {bl bl'} {levels : List Nat} {a : Advancement}
    (h : pushLevels bl levels a = some bl') (l : Nat) :
    (bl l = none → bl' l = none)
    ∧ (∀ b, bl l = some b → ∃ b', bl' l = some b'
        ∧ ∀ x, x ∈ b' ↔ x ∈ b ∨ (x = a ∧ l ∈ levels)) := by
  induction levels generalizing bl with
  | nil =>
    rw [pushLevels_nil] at h
    injection h with h
    subst h
    exact ⟨fun h0 => h0, fun b hb => ⟨b, hb, by simp⟩⟩
  | cons hd tl ih =>
    rw [pushLevels_cons] at h
    cases hbhd : bl hd with
    | none => rw [hbhd] at h; exact absurd h (by simp)
    | some bhd =>
      rw [hbhd] at h
      simp only [] at h
      rcases ih h with ⟨hnone, hsome⟩
      constructor
      · intro h0
        by_cases hl : l = hd
        · subst hl
          rw [h0] at hbhd
          cases hbhd
        · exact hnone (by simp [hl, h0])
      · intro b hb
        by_cases hl : l = hd
        · subst hl
          rw [hb] at hbhd
          injection hbhd with hbhd
          subst hbhd
          rcases hsome (b ++ [a]) (by simp) with ⟨b', hb', hx⟩
          refine ⟨b', hb', fun x => ?_⟩
          rw [hx x]
          simp only [List.mem_append, List.mem_singleton, List.mem_cons]
          tauto
        · rcases hsome b (by simp [hl, hb]) with ⟨b', hb', hx⟩
          refine ⟨b', hb', fun x => ?_⟩
          rw [hx x]
          simp only [List.mem_cons]
          have : ¬ hd = l := fun hh => hl hh.symm
          tauto

theorem pushLevels_key {bl bl'} {levels : List Nat} {a : Advancement}
    (h : pushLevels bl levels a = some bl') :
    ∀ l ∈ levels, ∃ b, bl l = some b := by
  induction levels generalizing bl with
  | nil => intro l hl; cases hl
  | cons hd tl ih =>
    rw [pushLevels_cons] at h
    cases hbhd : bl hd with
    | none => rw [hbhd] at h; exact absurd h (by simp)
    | some bhd =>
      rw [hbhd] at h
      simp only [] at h
      intro l hl
      rcases List.mem_cons.mp hl with hl | hl
      · exact ⟨bhd, hl ▸ hbhd⟩
      · rcases ih h l hl with ⟨b, hb⟩
        by_cases he : l = hd
        · exact ⟨bhd, he ▸ hbhd⟩
        · rw [if_neg he] at hb
          exact ⟨b, hb⟩

theorem addAdvancement_invalid {idx : AdvancementIndex} {a : Advancement}
    (h : a.valid = false) : addAdvancement idx a = some idx := by
  simp [addAdvancement, h]

theorem addAdvancement_valid {idx : AdvancementIndex} {a : Advancement}
    (h : a.valid = true) :
    addAdvancement idx a =
      match pushLevels idx.byLevel a.levels a with
      | none => none
      | some bl =>
        some { byId := fun k => if k = a.id then some a else idx.byId k
               byLevel := bl
               byType := fun k =>
                 if k = a.atype then some ((idx.byType k).getD [] ++ [a])
                 else idx.byType k
               needingConfiguration :=
                 if a.levels = [] then idx.needingConfiguration ++ [a]
                 else idx.needingConfiguration } := by
  simp [addAdvancement, h]

/-- The loop over the advancement list preserves the bucket key set, and a
final bucket holds exactly the prior contents plus every valid processed
advancement applicable at that level; `needingConfiguration` gains exactly
the valid processed advancements with an empty level set. -/
theorem buildIndex_spec {idx idx' : AdvancementIndex} {advs : List Advancement}
    (h : buildIndex idx advs = some idx') :
    (∀ l, (idx.byLevel l = none → idx'.byLevel l = none)
      ∧ (∀ b, idx.byLevel l = some b → ∃ b', idx'.byLevel l = some b'
          ∧ ∀ x, x ∈ b' ↔ x ∈ b ∨ (x ∈ advs ∧ x.valid = true ∧ l ∈ x.levels)))
    ∧ (∀ x, x ∈ idx'.needingConfiguration ↔
        x ∈ idx.needingConfiguration ∨ (x ∈ advs ∧ x.valid = true ∧ x.levels = [])) := by
  induction advs generalizing idx with
  | nil =>
    simp only [buildIndex] at h
    injection h with h
    subst h
    refine ⟨fun l => ⟨fun h0 => h0, fun b hb => ⟨b, hb, by simp⟩⟩, by simp⟩
  | cons a rest ih =>
    simp only [buildIndex] at h
    cases hadd : addAdvancement idx a with
    | none => rw [hadd] at h; exact absurd h (by simp)
    | some idx1 =>
      rw [hadd] at h
      simp only [] at h
      rcases ih h with ⟨ihl, ihn⟩
      cases hval : a.valid with
      | false =>
        rw [addAdvancement_invalid hval] at hadd
        injection hadd with hadd
        subst hadd
        constructor
        · intro l
          refine ⟨(ihl l).1, fun b hb => ?_⟩
          rcases (ihl l).2 b hb with ⟨b', hb', hx⟩
          refine ⟨b', hb', fun x => ?_⟩
          rw [hx x]
          constructor
          · rintro (h1 | ⟨h1, h2, h3⟩)
            · exact Or.inl h1
            · exact Or.inr ⟨List.mem_cons_of_mem a h1, h2, h3⟩
          · rintro (h1 | ⟨h1, h2, h3⟩)
            · exact Or.inl h1
            · rcases List.mem_cons.mp h1 with h1 | h1
              · subst h1; rw [hval] at h2; cases h2
              · exact Or.inr ⟨h1, h2, h3⟩
        · intro x
          rw [ihn x]
          constructor
          · rintro (h1 | ⟨h1, h2, h3⟩)
            · exact Or.inl h1
            · exact Or.inr ⟨List.mem_cons_of_mem a h1, h2, h3⟩
          · rintro (h1 | ⟨h1, h2, h3⟩)
            · exact Or.inl h1
            · rcases List.mem_cons.mp h1 with h1 | h1
              · subst h1; rw [hval] at h2; cases h2
              · exact Or.inr ⟨h1, h2, h3⟩
      | true =>
        rw [addAdvancement_valid hval] at hadd
        cases hpush : pushLevels idx.byLevel a.levels a with
        | none => rw [hpush] at hadd; exact absurd hadd (by simp)
        | some bl =>
          rw [hpush] at hadd
          simp only [Option.some.injEq] at hadd
          subst hadd
          constructor
          · intro l
            constructor
            · intro h0
              exact (ihl l).1 ((pushLevels_spec hpush l).1 h0)
            · intro b hb
              rcases (pushLevels_spec hpush l).2 b hb with ⟨b1, hb1, hx1⟩
              rcases (ihl l).2 b1 hb1 with ⟨b', hb', hx⟩
              refine ⟨b', hb', fun x => ?_⟩
              rw [hx x, hx1 x]
              constructor
              · rintro ((h1 | ⟨h1, h2⟩) | ⟨h1, h2, h3⟩)
                · exact Or.inl h1
                · exact Or.inr ⟨h1 ▸ List.mem_cons_self a rest, h1 ▸ hval, h1 ▸ h2⟩
                · exact Or.inr ⟨List.mem_cons_of_mem a h1, h2, h3⟩
              · rintro (h1 | ⟨h1, h2, h3⟩)
                · exact Or.inl (Or.inl h1)
                · rcases List.mem_cons.mp h1 with h1 | h1
                  · exact Or.inl (Or.inr ⟨h1, h1 ▸ h3⟩)
                  · exact Or.inr ⟨h1, h2, h3⟩
          · intro x
            rw [ihn x]
            constructor
            · rintro (h1 | ⟨h1, h2, h3⟩)
              · by_cases hemp : a.levels = []
                · rw [if_pos hemp] at h1
                  rcases List.mem_append.mp h1 with h1 | h1
                  · exact Or.inl h1
                  · rcases List.mem_singleton.mp h1 with h1
                    exact Or.inr ⟨h1 ▸ List.mem_cons_self a rest, h1 ▸ hval, h1 ▸ hemp⟩
                · rw [if_neg hemp] at h1
                  exact Or.inl h1
              · exact Or.inr ⟨List.mem_cons_of_mem a h1, h2, h3⟩
            · rintro (h1 | ⟨h1, h2, h3⟩)
              · by_cases hemp : a.levels = [] <;> simp [hemp, h1]
              · rcases List.mem_cons.mp h1 with h1 | h1
                · subst h1
                  rw [if_pos h3]
                  exact Or.inl (List.mem_append.mpr (Or.inr (by simp)))
                · exact Or.inr ⟨h1, h2, h3⟩

/-- If the build succeeded, every level of every valid stored advancement had
a bucket in the initial index (otherwise the `byLevel[l].push` would have
faulted). -/
theorem buildIndex_key {idx idx' : AdvancementIndex} {advs : List Advancement}
    (h : buildIndex idx advs = some idx') :
    ∀ x ∈ advs, x.valid = true → ∀ l ∈ x.levels, ∃ b, idx.byLevel l = some b := by
  induction advs generalizing idx with
  | nil => intro x hx; cases hx
  | cons a rest ih =>
    simp only [buildIndex] at h
    cases hadd : addAdvancement idx a with
    | none => rw [hadd] at h; exact absurd h (by simp)
    | some idx1 =>
      rw [hadd] at h
      simp only [] at h
      intro x hx hval l hl
      rcases List.mem_cons.mp hx with hx | hx
      · subst hx
        rw [addAdvancement_valid hval] at hadd
        cases hpush : pushLevels idx.byLevel x.levels x with
        | none => rw [hpush] at hadd; exact absurd hadd (by simp)
        | some bl => exact pushLevels_key hpush l hl
      · rcases ih h x hx hval l hl with ⟨b, hb⟩
        cases hval' : a.valid with
        | false =>
          rw [addAdvancement_invalid hval'] at hadd
          injection hadd with hadd
          exact ⟨b, hadd ▸ hb⟩
        | true =>
          rw [addAdvancement_valid hval'] at hadd
          cases hpush : pushLevels idx.byLevel a.levels a with
          | none => rw [hpush] at hadd; exact absurd hadd (by simp)
          | some bl =>
            rw [hpush] at hadd
            simp only [Option.some.injEq] at hadd
            subst hadd
            have hb' : bl l = some b := hb
            cases hb0 : idx.byLevel l with
            | none => exact absurd hb' (by rw [(pushLevels_spec hpush l).1 hb0]; simp)
            | some b0 => exact ⟨b0, rfl⟩

theorem initIndex_byLevel_eq {itemType : String} {maxLevel l : Nat}
    {b : List Advancement} (h : (initIndex itemType maxLevel).byLevel l = some b) :
    b = [] := by
  simp only [initIndex] at h
  split at h
  all_goals split at h
  all_goals first
    | (injection h with h; exact h.symm)
    | cases h

/-- C8: after building the advancement index, every valid stored advancement
whose level set is `{3, 5}` appears in the level-3 and level-5 buckets and in
no other level bucket, and every valid stored advancement with an empty
level set appears in `needingConfiguration` and in no level bucket. -/
theorem claim_C8_advancement_bucketing (itemType : String) (maxLevel : Nat)
    (advs : List Advancement) (idx : AdvancementIndex) (a : Advancement)
    (hprep : prepareAdvancement itemType maxLevel advs = some idx)
    (hmem : a ∈ advs) (hval : a.valid = true) :
    ((3 ∈ a.levels → 5 ∈ a.levels → (∀ l ∈ a.levels, l = 3 ∨ l = 5) →
        (∃ b, idx.byLevel 3 = some b ∧ a ∈ b)
        ∧ (∃ b, idx.byLevel 5 = some b ∧ a ∈ b)
        ∧ ∀ l b, idx.byLevel l = some b → l ≠ 3 → l ≠ 5 → a ∉ b)
     ∧ (a.levels = [] →
        a ∈ idx.needingConfiguration
        ∧ ∀ l b, idx.byLevel l = some b → a ∉ b)) := by
  rcases Option.map_eq_some'.mp hprep with ⟨idx0, hbuild, hsort⟩
  subst hsort
  have hkey := buildIndex_key hbuild a hmem hval
  rcases buildIndex_spec hbuild with ⟨hlvl, hcfg⟩
  have hbucket_in : ∀ l ∈ a.levels,
      ∃ b, (sortIndex idx0).byLevel l = some b ∧ a ∈ b := by
    intro l hl
    rcases hkey l hl with ⟨b0, hb0⟩
    rcases (hlvl l).2 b0 hb0 with ⟨b', hb', hx⟩
    refine ⟨b'.mergeSort (fun x y => x.sortKey l ≤ y.sortKey l), ?_, ?_⟩
    · simp [sortIndex, hb']
    · exact List.mem_mergeSort.mpr ((hx a).mpr (Or.inr ⟨hmem, hval, hl⟩))
  have hbucket_out : ∀ l, l ∉ a.levels →
      ∀ b, (sortIndex idx0).byLevel l = some b → a ∉ b := by
    intro l hl b hb
    simp only [sortIndex, Option.map_eq_some'] at hb
    rcases hb with ⟨b', hb', hbs⟩
    cases hinit : (initIndex itemType maxLevel).byLevel l with
    | none => rw [(hlvl l).1 hinit] at hb'; cases hb'
    | some binit =>
      rcases (hlvl l).2 binit hinit with ⟨b'', hb'', hx⟩
      rw [hb''] at hb'
      injection hb' with hb'
      subst hb'
      subst hbs
      intro hab
      rcases (hx a).mp (List.mem_mergeSort.mp hab) with h1 | ⟨_, _, h3⟩
      · rw [initIndex_byLevel_eq hinit] at h1
        cases h1
      · exact hl h3
  constructor
  · intro h3 h5 honly
    refine ⟨hbucket_in 3 h3, hbucket_in 5 h5, fun l b hb hl3 hl5 => ?_⟩
    refine hbucket_out l (fun hl => ?_) b hb
    rcases honly l hl with h | h
    · exact hl3 h
    · exact hl5 h
  · intro hemp
    constructor
    · exact (hcfg a).mpr (Or.inr ⟨hmem, hval, hemp⟩)
    · intro l b hb
      exact hbucket_out l (by rw [hemp]; exact List.not_mem_nil l) b hb

/-- A concrete valid advancement applicable at levels 3 and 5. -/
def advA : Advancement :=
  { valid := true, id := "advA", atype := "ItemGrant", levels := [3, 5],
    sortKey := fun _ => "00A" }

/-- A concrete valid advancement with an empty level set. -/
def advB : Advancement :=
  { valid := true, id := "advB", atype := "ScaleValue", levels := [],
    sortKey := fun _ => "00B" }

/-- C8 witness: preparing a class item's index over `[advA, advB]` with max
level 5 places `advA` (levels `{3,5}`) in buckets 3 and 5 and nowhere else,
and places `advB` (no levels) only in `needingConfiguration`. -/
theorem claim_C8_advancement_bucketing_witness :
    ∃ idx, prepareAdvancement "class" 5 [advA, advB] = some idx
      ∧ (∃ b, idx.byLevel 3 = some b ∧ advA ∈ b)
      ∧ (∃ b, idx.byLevel 5 = some b ∧ advA ∈ b)
      ∧ (∀ l b, idx.byLevel l = some b → l ≠ 3 → l ≠ 5 → advA ∉ b)
      ∧ advB ∈ idx.needingConfiguration
      ∧ (∀ l b, idx.byLevel l = some b → advB ∉ b) := by
  have hprep : ∃ idx, prepareAdvancement "class" 5 [advA, advB] = some idx := by
    simp [prepareAdvancement, buildIndex, addAdvancement, advA, advB, pushLevels,
      initIndex]
  rcases hprep with ⟨idx, hidx⟩
  have hA := claim_C8_advancement_bucketing "class" 5 [advA, advB] idx advA hidx
    (by simp) rfl
  have hB := claim_C8_advancement_bucketing "class" 5 [advA, advB] idx advB hidx
    (by simp) rfl
  have hA' := hA.1 (by simp [advA]) (by simp [advA])
    (by intro l hl; simp [advA] at hl; tauto)
  have hB' := hB.2 rfl
  exact ⟨idx, hidx, hA'.1, hA'.2.1, hA'.2.2, hB'.1, hB'.2⟩

/-! ## Item/actor data model for usage resolution and derived statistics

JS truthiness and nullish (`??`/`?.`) semantics are embedded explicitly:
an `Option` field distinguishes `null`/`undefined` (`none`) from a present
value; a `String` field uses `""` for a falsy/absent string; numeric fields
that every read coerces through `Number(x ?? d)` or arithmetic (where JS
`null` behaves as `0`) are plain `Int`. -/

/-- An item's `system.uses` record.  `value` is `Int` because every read
coerces it (`Number(uses.value ?? 0)`, or arithmetic where `null` acts as 0);
`max` keeps `null` distinct from `0` because of `uses.max ?? 1` and the
truthiness test `uses.per && uses.max`. -/
structure UsesData where
  value : Int := 0
  max : Option Int := none
  per : String := ""
  deriving DecidableEq

/-- An item's `system.recharge` record: `value` is the recharge target
(truthy iff present and nonzero), `charged` is kept optional because
`_getUsageUpdates` tests `recharge.charged === false` strictly. -/
structure RechargeData where
  value : Option Int := none
  charged : Option Bool := none
  deriving DecidableEq

/-- The resource kinds dispatched by `_handleConsumeResource`'s `switch`
(item.mjs lines 1018 and 1059). -/
inductive ConsumeType where
  | attribute | ammo | material | hitDice | charges
  deriving DecidableEq

/-- An item's `system.consume` record: `ctype = none` models a falsy
`consume.type`, `target = ""` a falsy target, and `amount = none` an absent
amount (read as `Number(consume.amount ?? 1)` for the availability check,
but passed raw to the hit-dice loop). -/
structure ConsumeData where
  ctype : Option ConsumeType := none
  target : String := ""
  amount : Option Int := none
  deriving DecidableEq

/-- A sibling item owned by the same actor, as read by the resolver and the
critical-threshold calculator: identifier, quantity, limited uses, recharge
state, and `system.critical.threshold` (absent = no reduction). -/
structure SiblingItem where
  id : String
  itype : String := ""
  quantity : Int := 0
  uses : UsesData := {}
  recharge : RechargeData := {}
  criticalThreshold : Option Int := none
  deriving DecidableEq

/-- A class item of the actor, as read by hit-dice consumption: its hit die
denomination string (e.g. `"d8"`), class levels, and used hit dice. -/
structure ClassItem where
  id : String
  hitDice : String
  levels : Int
  hitDiceUsed : Int
  deriving DecidableEq

/-- The actor's `flags.dnd5e` critical-threshold overrides. -/
structure ActorFlags where
  weaponCriticalThreshold : Option Int := none
  spellCriticalThreshold : Option Int := none
  deriving DecidableEq

/-- The owning actor's state as read by the resolver: named numeric system
attributes (for `consume.target` paths), spell slot pools (pool name to the
pool's `value`), owned sibling items, class items, and flags. -/
structure Actor where
  attributes : List (String × Int) := []
  spells : List (String × Int) := []
  items : List SiblingItem := []
  classes : List ClassItem := []
  flags : ActorFlags := {}
  deriving DecidableEq

/-- The item being used: its type, action type, and the `system` fields the
resolver and threshold calculator read.  Optional records model
`this.system.recharge || {}` etc. -/
structure ItemState where
  itype : String := ""
  actionType : String := ""
  recharge : Option RechargeData := none
  uses : Option UsesData := none
  quantity : Option Int := none
  consume : Option ConsumeData := none
  criticalThreshold : Option Int := none
  deriving DecidableEq

/-- The requested spell-slot level in the usage configuration: a JS number
(`num`) or string (`str`, e.g. `"pact"` or a numeric string). -/
inductive ConsumeLevel where
  | num (n : Int)
  | str (s : String)
  deriving DecidableEq

/-- JS truthiness of a `consumeSpellLevel` value: the number 0 and the empty
string are falsy. -/
def ConsumeLevel.truthy : ConsumeLevel → Bool
  | .num n => n ≠ 0
  | .str s => s ≠ ""

/-- Foundry's `Number.isNumeric` restricted to the strings in scope: an
optionally sign-prefixed run of digits. -/
def isNumericStr (s : String) : Bool :=
  (s ≠ "" && s.toList.all Char.isDigit)
    || (s.toList.head? = some '-' && (s.toList.tail ≠ [] && s.toList.tail.all Char.isDigit))

/-- The actor spell-pool key for a requested slot level (item.mjs line 949):
numeric values and numeric strings become `spell<n>`, other strings (such as
`"pact"`) are used as-is. -/
def ConsumeLevel.key : ConsumeLevel → String
  | .num n => "spell" ++ toString n
  | .str s => if isNumericStr s then "spell" ++ s else s

/-- Truthiness of the whole optional `consumeSpellLevel`. -/
def levelTruthy : Option ConsumeLevel → Bool
  | none => false
  | some l => l.truthy

/-- `ItemUseConfiguration`: the consumption flags destructured by
`_getUsageUpdates` (item.mjs lines 924-926). -/
structure UsageConfig where
  consumeQuantity : Bool := false
  consumeRecharge : Bool := false
  consumeResource : Bool := false
  consumeSpellSlot : Bool := false
  consumeSpellLevel : Option ConsumeLevel := none
  consumeUsage : Bool := false
  deriving DecidableEq

/-- The `itemUpdates` bucket: a JS object whose possible keys are
`system.recharge.charged`, `system.uses.value` and `system.quantity`; later
assignments to the same key overwrite. -/
structure ItemUpdates where
  rechargeCharged : Option Bool := none
  usesValue : Option Int := none
  quantity : Option Int := none
  deriving DecidableEq

/-- One entry of the `actorUpdates` bucket: a spell-pool decrement
(`system.spells.<pool>.value`) or a consumed-attribute write
(`system.<path>`). -/
inductive ActorUpdate where
  | spellSlot (pool : String) (value : Int)
  | attribute (path : String) (value : Int)
  deriving DecidableEq

/-- One entry of the `resourceUpdates` bucket (an update object for a
sibling item, keyed by `_id`).  `hitDiceUsed none` models the `NaN` update
written when the raw `consume.amount` is absent; `idOnly` is the bare
`{_id}` object pushed when a charges target has neither limited uses nor a
recharge value. -/
inductive ResourceUpdate where
  | quantity (id : String) (value : Int)
  | hitDiceUsed (id : String) (value : Option Int)
  | usesValue (id : String) (value : Int)
  | rechargeCharged (id : String) (value : Bool)
  | idOnly (id : String)
  deriving DecidableEq

/-- The three update buckets assembled by `_getUsageUpdates`. -/
structure Usage where
  itemUpdates : ItemUpdates := {}
  actorUpdates : List ActorUpdate := []
  resourceUpdates : List ResourceUpdate := []
  deriving DecidableEq

/-! ## Hit-dice class sorting and consumption -/

/-- Split a leading run of digits off a character list. -/
def splitDigitPrefix : List Char → List Char × List Char
  | [] => ([], [])
  | c :: cs =>
    if c.isDigit then
      let (d, r) := splitDigitPrefix cs
      (c :: d, r)
    else ([], c :: cs)

theorem splitDigitPrefix_snd_length (cs : List Char) :
    (splitDigitPrefix cs).2.length ≤ cs.length := by
  induction cs with
  | nil => simp [splitDigitPrefix]
  | cons c cs ih =>
    simp only [splitDigitPrefix]
    split
    · simpa using Nat.le_succ_of_le ih
    · simp

/-- Numeric value of a digit run. -/
def digitsVal (cs : List Char) : Nat :=
  cs.foldl (fun n c => 10 * n + (c.toNat - 48)) 0

/-- `String#localeCompare(..., {numeric: true})` on the character lists:
runs of digits are compared by numeric value, other characters by code
point. -/
def numericCompare : List Char → List Char → Ordering
  | [], [] => .eq
  | [], _ :: _ => .lt
  | _ :: _, [] => .gt
  | c1 :: t1, c2 :: t2 =>
    if c1.isDigit && c2.isDigit then
      let s1 := splitDigitPrefix (c1 :: t1)
      let s2 := splitDigitPrefix (c2 :: t2)
      match compare (digitsVal s1.1) (digitsVal s2.1) with
      | .eq => numericCompare s1.2 s2.2
      | o => o
    else
      match compare c1 c2 with
      | .eq => numericCompare t1 t2
      | o => o
termination_by a b => a.length + b.length
decreasing_by
  · have hd1 : c1.isDigit = true := by simp_all
    have hd2 : c2.isDigit = true := by simp_all
    have h1 := splitDigitPrefix_snd_length t1
    have h2 := splitDigitPrefix_snd_length t2
    simp only [s1, s2, splitDigitPrefix, hd1, hd2, if_true, List.length_cons]
    omega
  · simp only [List.length_cons]
    omega

/-- The hit-die denomination comparison used to sort classes (item.mjs lines
1068-1072): `lhs.system.hitDice.localeCompare(rhs.system.hitDice, "en",
{numeric: true})`. -/
def hitDiceCompare (a b : String) : Ordering :=
  numericCompare a.toList b.toList

/-- The class sort for the `"smallest"`/`"largest"` hit-dice targets: stable
ascending by the numeric-aware comparison, reversed for `"largest"`
(`sort *= -1`).  JS `Array#sort` keeps elements it compares as `<= 0` in
order, so the stable `mergeSort` predicate admits ties. -/
def sortClasses (target : String) (classes : List ClassItem) : List ClassItem :=
  classes.mergeSort (fun l r =>
    let o := hitDiceCompare l.hitDice r.hitDice
    if target = "largest" then o ≠ .lt else o ≠ .gt)

/-- One iteration's `delta` (item.mjs lines 1075-1076):
`available = (toConsume > 0 ? cls.system.levels : 0) - cls.system.hitDiceUsed`
and `delta = toConsume > 0 ? Math.min(toConsume, available) :
Math.max(toConsume, available)`. -/
def hitDiceDelta (cls : ClassItem) (t : Int) : Int :=
  let avail := (if 0 < t then cls.levels else 0) - cls.hitDiceUsed
  if 0 < t then min t avail else max t avail

/-- The hit-dice consumption loop (item.mjs lines 1073-1082) over the sorted
class list.  `toConsume = none` models the raw `consume.amount` being
`undefined`: every arithmetic step then yields `NaN` (an update value of
`none`), `NaN !== 0` pushes an update for every class, and `NaN === 0`
never breaks. -/
def hitDiceLoop : List ClassItem → Option Int → List ResourceUpdate
  | [], _ => []
  | cls :: rest, none =>
    .hitDiceUsed cls.id none :: hitDiceLoop rest none
  | cls :: rest, some t =>
    let delta := hitDiceDelta cls t
    if delta = 0 then hitDiceLoop rest (some t)
    else if t - delta = 0 then [.hitDiceUsed cls.id (some (cls.hitDiceUsed + delta))]
    else .hitDiceUsed cls.id (some (cls.hitDiceUsed + delta))
      :: hitDiceLoop rest (some (t - delta))

/-! ## The usage resolver (`_getUsageUpdates` / `_handleConsumeResource`) -/

/-- `foundry.utils.getProperty(this.actor.system, consume.target)`:
first binding of the attribute path, `none` when the path is absent. -/
def lookupAttr (actor : Actor) (path : String) : Option Int :=
  actor.attributes.lookup path

/-- `this.actor.items.get(target)`. -/
def getItem (actor : Actor) (target : String) : Option SiblingItem :=
  actor.items.find? (fun it => it.id = target)

/-- `["smallest","largest"].includes(consume.target)` (item.mjs line 1029). -/
def isHitDiceKeyword (target : String) : Bool :=
  target == "smallest" || target == "largest"

/-- The class items considered for hit-dice consumption (line 1030): all of
the actor's classes for the `"smallest"`/`"largest"` keywords, else only the
classes whose hit die equals the target denomination. -/
def hitDiceResource (actor : Actor) (target : String) : List ClassItem :=
  if isHitDiceKeyword target then actor.classes
  else actor.classes.filter (fun cls => cls.hitDice = target)

/-- `resource.reduce((count, cls) => count + cls.system.levels -
cls.system.hitDiceUsed, 0)` (line 1031). -/
def aggregateHitDice (classes : List ClassItem) : Int :=
  classes.foldl (fun c cls => c + cls.levels - cls.hitDiceUsed) 0

/-- The aggregate available hit dice (line 1031):
`sum of (levels - hitDiceUsed)` over the considered classes. -/
def hitDiceQuantity (actor : Actor) (target : String) : Int :=
  aggregateHitDice (hitDiceResource actor target)

/-- The charges target's `uses.per && uses.max` truthiness (lines 1037 and
1088). -/
def chargesUsesOk (res : SiblingItem) : Bool :=
  (res.uses.per != "") && (res.uses.max.getD 0 != 0)

/-- The charges target's `recharge.value` truthiness (lines 1038 and 1089). -/
def chargesRechargeOk (res : SiblingItem) : Bool :=
  res.recharge.value.getD 0 != 0

/-- The available quantity of a charges target (lines 1036-1041): its
limited-uses value, else `1`/`0` by its charged flag, else 0. -/
def chargesQuantity (res : SiblingItem) : Int :=
  if chargesUsesOk res then res.uses.value
  else if chargesRechargeOk res then (if res.recharge.charged = some true then 1 else 0)
  else 0

/-- The effective consumed amount for a charges target: forced to 1 for a
recharge-style target (line 1040), else the configured amount. -/
def chargesAmount (res : SiblingItem) (amount : Int) : Int :=
  if chargesUsesOk res then amount else if chargesRechargeOk res then 1 else amount

/-- `Item5e#_handleConsumeResource` (item.mjs lines 1003-1093), acting on the
update buckets `u`: `none` models `return false`, `some u'` the buckets after
the step.  Checks (no consumed target, missing source, insufficient
quantity) all happen before any update is appended. -/
def handleConsumeResource (it : ItemState) (actor : Actor) (u : Usage) :
    Option Usage :=
  let consume := it.consume.getD {}
  match consume.ctype with
  | none => some u
  | some ct =>
    if consume.target = "" then none
    else
      let amount := consume.amount.getD 1
      match ct with
      | .attribute =>
        match lookupAttr actor consume.target with
        | none => none
        | some v =>
          let remaining := v - amount
          if remaining < 0 then none
          else some { u with actorUpdates :=
            u.actorUpdates ++ [.attribute consume.target remaining] }
      | .ammo | .material =>
        match getItem actor consume.target with
        | none => none
        | some res =>
          let remaining := res.quantity - amount
          if remaining < 0 then none
          else some { u with resourceUpdates :=
            u.resourceUpdates ++ [.quantity consume.target remaining] }
      | .hitDice =>
        let remaining := hitDiceQuantity actor consume.target - amount
        if remaining < 0 then none
        else
          let sorted :=
            if isHitDiceKeyword consume.target then
              sortClasses consume.target (hitDiceResource actor consume.target)
            else hitDiceResource actor consume.target
          some { u with resourceUpdates :=
            u.resourceUpdates ++ hitDiceLoop sorted consume.amount }
      | .charges =>
        match getItem actor consume.target with
        | none => none
        | some res =>
          let remaining := chargesQuantity res - chargesAmount res amount
          if remaining < 0 then none
          else
            let upd :=
              if chargesUsesOk res then ResourceUpdate.usesValue consume.target remaining
              else if chargesRechargeOk res then
                ResourceUpdate.rechargeCharged consume.target false
              else ResourceUpdate.idOnly consume.target
            some { u with resourceUpdates := u.resourceUpdates ++ [upd] }

/-- The recharge step (item.mjs lines 931-939): fail when
`recharge.charged === false`, else schedule `system.recharge.charged =
false`. -/
def rechargeStep (it : ItemState) (cfg : UsageConfig) (u : Usage) : Option Usage :=
  if cfg.consumeRecharge then
    let recharge := it.recharge.getD {}
    if recharge.charged = some false then none
    else some { u with itemUpdates := { u.itemUpdates with rechargeCharged := some false } }
  else some u

/-- The linked-resource step (item.mjs lines 941-945). -/
def resourceStep (it : ItemState) (actor : Actor) (cfg : UsageConfig)
    (u : Usage) : Option Usage :=
  if cfg.consumeResource then handleConsumeResource it actor u else some u

/-- The spell-slot step (item.mjs lines 947-959): skipped unless both
`consumeSpellSlot` and `consumeSpellLevel` are truthy; reads the pool's
`value` (missing pool reads as 0), fails when it is 0, else schedules
`system.spells.<pool>.value = Math.max(value - 1, 0)`. -/
def spellStep (actor : Actor) (cfg : UsageConfig) (u : Usage) : Option Usage :=
  match cfg.consumeSpellLevel with
  | none => some u
  | some lvl =>
    if cfg.consumeSpellSlot && lvl.truthy then
      let key := lvl.key
      let spells := (actor.spells.lookup key).getD 0
      if spells = 0 then none
      else some { u with actorUpdates :=
        u.actorUpdates ++ [.spellSlot key (max (spells - 1) 0)] }
    else some u

/-- The limited-uses / quantity step (item.mjs lines 961-987): decrement the
item's own uses when available; when `consumeQuantity` is set and either no
use was available or the decrement hit zero, decrement the quantity and
reset uses to `max ?? 1`; fail when nothing could be decremented. -/
def usageStep (it : ItemState) (cfg : UsageConfig) (u : Usage) : Option Usage :=
  if cfg.consumeUsage then
    let uses := it.uses.getD {}
    let available := uses.value
    let remaining := max (available - 1) 0
    let used1 := decide (1 ≤ available)
    let iu1 := if 1 ≤ available
      then { u.itemUpdates with usesValue := some remaining }
      else u.itemUpdates
    let step2 : Bool × ItemUpdates :=
      if cfg.consumeQuantity && (!used1 || remaining == 0) then
        let q := it.quantity.getD 1
        if 1 ≤ q then
          (true,
           { iu1 with
              quantity := some (max (q - 1) 0)
              usesValue := some (uses.max.getD 1) })
        else (used1, iu1)
      else (used1, iu1)
    if step2.1 then some { u with itemUpdates := step2.2 } else none
  else some u

/-- `Item5e#_getUsageUpdates(config)` (item.mjs lines 924-991): the four
consumption steps in order, each aborting the whole resolution (`false`,
here `none`) so that no update buckets are returned. -/
def getUsageUpdates (it : ItemState) (actor : Actor) (cfg : UsageConfig) :
    Option Usage :=
  (((rechargeStep it cfg {}).bind
    (resourceStep it actor cfg)).bind
    (spellStep actor cfg)).bind
    (usageStep it cfg)

/-! ## Critical threshold (`getCriticalThreshold`, item.mjs lines 638-650) -/

/-- `Item5e#hasAttack` (item.mjs lines 95-97). -/
def hasAttack (it : ItemState) : Bool :=
  it.actionType ∈ ["mwak", "rwak", "msak", "rsak"]

/-- The actor's kind-specific flag threshold (lines 644-645):
`flags.dnd5e.weaponCriticalThreshold` for weapons,
`flags.dnd5e.spellCriticalThreshold` for spells, absent otherwise. -/
def actorKindThreshold (it : ItemState) (actor : Actor) : Option Int :=
  if it.itype = "weapon" then actor.flags.weaponCriticalThreshold
  else if it.itype = "spell" then actor.flags.spellCriticalThreshold
  else none

/-- The consumed ammunition's threshold (lines 646-648): read only when the
item consumes ammo; `none` models the `Infinity` fallback (no such item, or
no threshold on it). -/
def ammoCritThreshold (it : ItemState) (actor : Actor) : Option Int :=
  if (it.consume.getD {}).ctype = some ConsumeType.ammo then
    (getItem actor (it.consume.getD {}).target).bind (fun res => res.criticalThreshold)
  else none

/-- `Math.min` where the first operand may be the `Infinity` sentinel. -/
def optMin : Option Int → Int → Int
  | none, x => x
  | some v, x => min v x

/-- `Item5e#getCriticalThreshold` (item.mjs lines 638-650): `null` without an
attack, else the minimum of the item's own threshold (`Infinity` when
absent), the ammo threshold (`Infinity` unless ammo is consumed and carries
one), and the actor flag threshold defaulted to 20. -/
def getCriticalThreshold (it : ItemState) (actor : Actor) : Option Int :=
  if !hasAttack it then none
  else some (optMin it.criticalThreshold
    (optMin (ammoCritThreshold it actor) ((actorKindThreshold it actor).getD 20)))

/-- The C7 example item: a weapon with its own threshold 19, attacking with
consumed ammunition. -/
def c7item : ItemState :=
  { itype := "weapon", actionType := "rwak", criticalThreshold := some 19,
    consume := some { ctype := some ConsumeType.ammo, target := "arrows",
                      amount := some 1 } }

/-- The C7 example actor: weapon flag threshold 18, owning ammo whose own
threshold is 20. -/
def c7actor : Actor :=
  { items := [{ id := "arrows", itype := "consumable", quantity := 10,
                criticalThreshold := some 20 }],
    flags := { weaponCriticalThreshold := some 18 } }

/-- C7: for every attack-capable item the resolved critical threshold is the
minimum of the item's own threshold (no-reduction sentinel when absent), the
actor's kind-specific flag threshold defaulted to 20, and the consumed
ammunition's threshold: the result is a lower bound of each source and is
attained by one of them; the concrete instance item 19 / actor flag 18 /
ammo 20 resolves to 18. -/
theorem claim_C7_critical_threshold :
    (∀ (it : ItemState) (actor : Actor), hasAttack it = true →
      ∃ r, getCriticalThreshold it actor = some r
        ∧ r ≤ (actorKindThreshold it actor).getD 20
        ∧ (∀ t, it.criticalThreshold = some t → r ≤ t)
        ∧ (∀ t, ammoCritThreshold it actor = some t → r ≤ t)
        ∧ (r = (actorKindThreshold it actor).getD 20
            ∨ it.criticalThreshold = some r
            ∨ ammoCritThreshold it actor = some r))
    ∧ getCriticalThreshold c7item c7actor = some 18 := by
  constructor
  · intro it actor h
    refine ⟨optMin it.criticalThreshold
        (optMin (ammoCritThreshold it actor) ((actorKindThreshold it actor).getD 20)),
      by simp [getCriticalThreshold, h], ?_, ?_, ?_, ?_⟩
    · cases it.criticalThreshold <;> cases ammoCritThreshold it actor <;>
        simp [optMin]
    · intro t ht
      rw [ht]
      cases ammoCritThreshold it actor <;> simp [optMin]
    · intro t ht
      rw [ht]
      cases it.criticalThreshold <;> simp [optMin]
    · cases hi : it.criticalThreshold with
      | none =>
        cases ha : ammoCritThreshold it actor with
        | none => exact Or.inl rfl
        | some b =>
          simp only [optMin]
          rcases le_total b ((actorKindThreshold it actor).getD 20) with hle | hle
          · exact Or.inr (Or.inr (by rw [min_eq_left hle]))
          · exact Or.inl (min_eq_right hle)
      | some a =>
        cases ha : ammoCritThreshold it actor with
        | none =>
          simp only [optMin]
          rcases le_total a ((actorKindThreshold it actor).getD 20) with hle | hle
          · exact Or.inr (Or.inl (by rw [min_eq_left hle]))
          · exact Or.inl (min_eq_right hle)
        | some b =>
          simp only [optMin]
          rcases le_total a (min b ((actorKindThreshold it actor).getD 20)) with hle | hle
          · exact Or.inr (Or.inl (by rw [min_eq_left hle]))
          · rcases le_total b ((actorKindThreshold it actor).getD 20) with hlb | hlb
            · refine Or.inr (Or.inr ?_)
              rw [min_eq_right hle, min_eq_left hlb]
            · refine Or.inl ?_
              rw [min_eq_right hle, min_eq_right hlb]
  · decide

/-- C7 witness: the characterization applied to the concrete weapon/actor
pair (item threshold 19, actor flag 18, ammo threshold 20). -/
theorem claim_C7_critical_threshold_witness :
    hasAttack c7item = true
    ∧ (∃ r, getCriticalThreshold c7item c7actor = some r
        ∧ r ≤ (actorKindThreshold c7item c7actor).getD 20
        ∧ (∀ t, c7item.criticalThreshold = some t → r ≤ t)
        ∧ (∀ t, ammoCritThreshold c7item c7actor = some t → r ≤ t)
        ∧ (r = (actorKindThreshold c7item c7actor).getD 20
            ∨ c7item.criticalThreshold = some r
            ∨ ammoCritThreshold c7item c7actor = some r)) :=
  ⟨by decide, claim_C7_critical_threshold.1 c7item c7actor (by decide)⟩

/-! ## C1: any missing/unconfigured/insufficient resource aborts the whole
resolution with no update buckets -/

/-- The recharge step's failure condition (item.mjs line 934): recharge
required and `recharge.charged === false`. -/
def rechargeBlocked (it : ItemState) (cfg : UsageConfig) : Bool :=
  cfg.consumeRecharge && ((it.recharge.getD {}).charged == some false)

/-- The linked-resource failure conditions of `_handleConsumeResource`: a
configured consumption whose target is unset, whose source is missing, or
whose available quantity is below the consumed amount. -/
def consumeBlocked (it : ItemState) (actor : Actor) : Bool :=
  let c := it.consume.getD {}
  match c.ctype with
  | none => false
  | some ct =>
    (c.target == "") ||
    match ct with
    | .attribute =>
      match lookupAttr actor c.target with
      | none => true
      | some v => decide (v - c.amount.getD 1 < 0)
    | .ammo | .material =>
      match getItem actor c.target with
      | none => true
      | some res => decide (res.quantity - c.amount.getD 1 < 0)
    | .hitDice => decide (hitDiceQuantity actor c.target - c.amount.getD 1 < 0)
    | .charges =>
      match getItem actor c.target with
      | none => true
      | some res => decide (chargesQuantity res - chargesAmount res (c.amount.getD 1) < 0)

/-- The spell-slot step's failure condition (item.mjs line 952): slot
consumption required at a truthy level whose pool value reads 0. -/
def spellSlotBlocked (actor : Actor) (cfg : UsageConfig) : Bool :=
  cfg.consumeSpellSlot &&
    match cfg.consumeSpellLevel with
    | none => false
    | some lvl => lvl.truthy && ((actor.spells.lookup lvl.key).getD 0 == 0)

/-- The limited-uses step's failure condition (item.mjs line 983): no use
available and no quantity fallback. -/
def usageBlocked (it : ItemState) (cfg : UsageConfig) : Bool :=
  cfg.consumeUsage && decide ((it.uses.getD {}).value < 1)
    && (!cfg.consumeQuantity || decide (it.quantity.getD 1 < 1))

theorem bind_none_of_forall {α β : Type} {o : Option α} {f : α → Option β}
    (h : ∀ a, f a = none) : o.bind f = none := by
  cases o <;> simp [h]

theorem rechargeStep_blocked {it : ItemState} {cfg : UsageConfig}
    (h : rechargeBlocked it cfg = true) (u : Usage) :
    rechargeStep it cfg u = none := by
  simp only [rechargeBlocked, Bool.and_eq_true, beq_iff_eq] at h
  simp [rechargeStep, h.1, h.2]

theorem handleConsumeResource_blocked {it : ItemState} {actor : Actor}
    (h : consumeBlocked it actor = true) (u : Usage) :
    handleConsumeResource it actor u = none := by
  simp only [consumeBlocked] at h
  cases hct : (it.consume.getD {}).ctype with
  | none => rw [hct] at h; cases h
  | some ct =>
    rw [hct] at h
    simp only [Bool.or_eq_true, beq_iff_eq] at h
    by_cases htgt : (it.consume.getD {}).target = ""
    · simp [handleConsumeResource, hct, htgt]
    · replace h := h.resolve_left htgt
      cases ct
      · cases hl : lookupAttr actor (it.consume.getD {}).target with
        | none => simp [handleConsumeResource, hct, htgt, hl]
        | some v =>
          simp only [hl, decide_eq_true_eq] at h
          simp [handleConsumeResource, hct, htgt, hl, h]
      · cases hl : getItem actor (it.consume.getD {}).target with
        | none => simp [handleConsumeResource, hct, htgt, hl]
        | some res =>
          simp only [hl, decide_eq_true_eq] at h
          simp [handleConsumeResource, hct, htgt, hl, h]
      · cases hl : getItem actor (it.consume.getD {}).target with
        | none => simp [handleConsumeResource, hct, htgt, hl]
        | some res =>
          simp only [hl, decide_eq_true_eq] at h
          simp [handleConsumeResource, hct, htgt, hl, h]
      · simp only [decide_eq_true_eq] at h
        simp [handleConsumeResource, hct, htgt, h]
      · cases hl : getItem actor (it.consume.getD {}).target with
        | none => simp [handleConsumeResource, hct, htgt, hl]
        | some res =>
          simp only [hl, decide_eq_true_eq] at h
          simp [handleConsumeResource, hct, htgt, hl, h]

theorem spellStep_blocked {actor : Actor} {cfg : UsageConfig}
    (h : spellSlotBlocked actor cfg = true) (u : Usage) :
    spellStep actor cfg u = none := by
  simp only [spellSlotBlocked, Bool.and_eq_true] at h
  rcases h with ⟨hslot, h⟩
  cases hlvl : cfg.consumeSpellLevel with
  | none => rw [hlvl] at h; cases h
  | some lvl =>
    rw [hlvl] at h
    simp only [Bool.and_eq_true, beq_iff_eq] at h
    simp [spellStep, hlvl, hslot, h.1, h.2]

theorem usageStep_blocked {it : ItemState} {cfg : UsageConfig}
    (h : usageBlocked it cfg = true) (u : Usage) :
    usageStep it cfg u = none := by
  simp only [usageBlocked, Bool.and_eq_true, Bool.or_eq_true, Bool.not_eq_true',
    decide_eq_true_eq] at h
  rcases h with ⟨⟨huse, hval⟩, hq⟩
  simp only [usageStep, if_pos huse]
  have hused1 : decide (1 ≤ (it.uses.getD {}).value) = false := by
    simp only [decide_eq_false_iff_not]
    omega
  rcases hq with hq | hq
  · simp [hused1, hq, if_neg (by omega : ¬ 1 ≤ (it.uses.getD {}).value)]
  · simp [hused1, if_neg (by omega : ¬ 1 ≤ (it.uses.getD {}).value),
      if_neg (by omega : ¬ 1 ≤ it.quantity.getD 1)]

/-- C1: for every resource kind and usage configuration, if a required
resource is missing, has no configured target, or is insufficient — the
recharge flag being spent, the linked resource (attribute / ammo / material
/ hit dice / charges) unset, absent or short, the requested spell-slot pool
empty, or neither limited uses nor quantity consumable — then
`_getUsageUpdates` returns `false` (`none`): no actor, item-self or
sibling-item update buckets are produced, so no state is changed by the
attempt. -/
theorem claim_C1_insufficient_aborts (it : ItemState) (actor : Actor)
    (cfg : UsageConfig)
    (h : rechargeBlocked it cfg = true
      ∨ (cfg.consumeResource = true ∧ consumeBlocked it actor = true)
      ∨ spellSlotBlocked actor cfg = true
      ∨ usageBlocked it cfg = true) :
    getUsageUpdates it actor cfg = none := by
  rcases h with h | ⟨hres, h⟩ | h | h
  · simp [getUsageUpdates, rechargeStep_blocked h]
  · have hstep : ∀ u, resourceStep it actor cfg u = none := by
      intro u
      simp [resourceStep, hres, handleConsumeResource_blocked h]
    simp [getUsageUpdates, bind_none_of_forall hstep]
  · have hstep : ∀ u, spellStep actor cfg u = none := spellStep_blocked h
    simp [getUsageUpdates, bind_none_of_forall hstep]
  · have hstep : ∀ u, usageStep it cfg u = none := usageStep_blocked h
    simp [getUsageUpdates, bind_none_of_forall hstep]

/-- C1 witness: an item that consumes ammunition whose target item is absent
from the actor resolves to `false` with no updates. -/
theorem claim_C1_insufficient_aborts_witness :
    getUsageUpdates
      { consume := some { ctype := some ConsumeType.ammo, target := "arrows",
                          amount := some 1 } }
      {} { consumeResource := true } = none :=
  claim_C1_insufficient_aborts _ _ _ (Or.inr (Or.inl ⟨rfl, by decide⟩))

/-- The C2 example item: uses `{value: 0, max: 3}` and quantity 2. -/
def c2item : ItemState :=
  { uses := some { value := 0, max := some 3, per := "day" }, quantity := some 2 }

/-- The C2 example configuration: consume a limited use with the quantity
fallback enabled. -/
def c2cfg : UsageConfig :=
  { consumeQuantity := true, consumeUsage := true }

/-- C2: the limited-uses step first tries to decrement the item's own uses
counter (when at least one use remains it is consumed); when uses are
unavailable or exhausted it falls back, under `consumeQuantity`, to
decrementing the item's quantity and resetting uses to max; it fails exactly
when neither uses nor quantity can be decremented.  Concretely, an item with
uses `{value: 0, max: 3}` and quantity 2 resolves: quantity drops to 1 and
`uses.value` resets to 3. -/
theorem claim_C2_limited_uses_fallback (it : ItemState) (cfg : UsageConfig)
    (u : Usage) (huse : cfg.consumeUsage = true) :
    (usageStep it cfg u = none ↔
      ((it.uses.getD {}).value < 1
        ∧ (cfg.consumeQuantity = false ∨ it.quantity.getD 1 < 1)))
    ∧ ((it.uses.getD {}).value < 1 → cfg.consumeQuantity = true →
        1 ≤ it.quantity.getD 1 →
        usageStep it cfg u = some { u with itemUpdates :=
          { u.itemUpdates with
              quantity := some (max (it.quantity.getD 1 - 1) 0)
              usesValue := some ((it.uses.getD {}).max.getD 1) } })
    ∧ (2 ≤ (it.uses.getD {}).value →
        usageStep it cfg u = some { u with itemUpdates :=
          { u.itemUpdates with usesValue := some ((it.uses.getD {}).value - 1) } })
    ∧ getUsageUpdates c2item {} c2cfg
        = some { itemUpdates := { usesValue := some 3, quantity := some 1 } } := by
  refine ⟨?_, ?_, ?_, by decide⟩
  · by_cases hv : 1 ≤ (it.uses.getD {}).value
    · have hused : decide (1 ≤ (it.uses.getD {}).value) = true := by
        simp [hv]
      constructor
      · intro hnone
        exfalso
        simp only [usageStep, if_pos huse, hused] at hnone
        split at hnone
        · split at hnone <;> simp at hnone
        · simp at hnone
      · intro ⟨h1, _⟩
        omega
    · have hused : decide (1 ≤ (it.uses.getD {}).value) = false := by
        simp only [decide_eq_false_iff_not]
        exact hv
      have hrem : max ((it.uses.getD {}).value - 1) 0 = 0 :=
        max_eq_right (by omega)
      cases hq : cfg.consumeQuantity with
      | false =>
        simp only [usageStep, if_pos huse, hused, hq]
        simp only [Bool.false_and, if_neg (by simp : ¬ (false : Bool) = true)]
        simp
        omega
      | true =>
        by_cases hqty : 1 ≤ it.quantity.getD 1
        · simp only [usageStep, if_pos huse, hused, hq]
          simp [if_pos hqty]
          omega
        · simp only [usageStep, if_pos huse, hused, hq]
          simp [if_neg hqty]
          omega
  · intro hv hq hqty
    have hused : decide (1 ≤ (it.uses.getD {}).value) = false := by
      simp only [decide_eq_false_iff_not]
      omega
    have hv' : ¬ 1 ≤ (it.uses.getD {}).value := by omega
    simp only [usageStep, if_pos huse, hused, hq]
    simp [if_pos hqty, hv']
  · intro hv
    have hused : decide (1 ≤ (it.uses.getD {}).value) = true := by
      simp only [decide_eq_true_eq]
      omega
    have hrem : (max ((it.uses.getD {}).value - 1) 0 == 0) = false := by
      simp only [beq_eq_false_iff_ne, ne_eq]
      have : max ((it.uses.getD {}).value - 1) 0 = (it.uses.getD {}).value - 1 :=
        max_eq_left (by omega)
      omega
    simp only [usageStep, if_pos huse, hused, hrem]
    have hmax : max ((it.uses.getD {}).value - 1) 0 = (it.uses.getD {}).value - 1 :=
      max_eq_left (by omega)
    have h1 : 1 ≤ (it.uses.getD {}).value := by omega
    simp [hmax, h1]

/-- C2 witness: the fail-iff characterization at an empty item (no uses, no
quantity fallback), the uses-first decrement at uses value 2, and the
concrete `{value:0, max:3}` / quantity-2 scenario. -/
theorem claim_C2_limited_uses_fallback_witness :
    usageStep {} { consumeUsage := true } {} = none
    ∧ usageStep { uses := some { value := 2, max := some 2, per := "day" } }
        { consumeUsage := true } {}
        = some { itemUpdates := { usesValue := some 1 } }
    ∧ getUsageUpdates c2item {} c2cfg
        = some { itemUpdates := { usesValue := some 3, quantity := some 1 } } :=
  ⟨(claim_C2_limited_uses_fallback {} { consumeUsage := true } {} rfl).1.mpr
      (by constructor <;> decide),
   by
    have h := (claim_C2_limited_uses_fallback
      { uses := some { value := 2, max := some 2, per := "day" } }
      { consumeUsage := true } {} rfl).2.2.1 (by decide)
    simpa using h,
   (claim_C2_limited_uses_fallback {} { consumeUsage := true } {} rfl).2.2.2⟩

/-- C9: when spell-slot consumption is required at a truthy requested level,
resolution reads the actor's pool at that level (numeric levels map to the
`spell<n>` pool, `"pact"` to the pact pool; a missing pool reads as 0), the
whole resolution fails with no updates exactly as the step fails — which
happens exactly when the pool value reads 0 — and a successful step appends
one actor update setting that pool to its value minus one floored at zero. -/
theorem claim_C9_spell_slot_consumption (it : ItemState) (actor : Actor)
    (cfg : UsageConfig) (lvl : ConsumeLevel)
    (hslot : cfg.consumeSpellSlot = true)
    (hlvl : cfg.consumeSpellLevel = some lvl)
    (htruthy : lvl.truthy = true) :
    ((actor.spells.lookup lvl.key).getD 0 = 0 →
      getUsageUpdates it actor cfg = none)
    ∧ (∀ u, spellStep actor cfg u = none ↔ (actor.spells.lookup lvl.key).getD 0 = 0)
    ∧ (∀ u u', spellStep actor cfg u = some u' →
        (actor.spells.lookup lvl.key).getD 0 ≠ 0
        ∧ u' = { u with actorUpdates := u.actorUpdates
            ++ [ActorUpdate.spellSlot lvl.key
                  (max ((actor.spells.lookup lvl.key).getD 0 - 1) 0)] }) := by
  refine ⟨?_, ?_, ?_⟩
  · intro h0
    have hblocked : spellSlotBlocked actor cfg = true := by
      simp [spellSlotBlocked, hslot, hlvl, htruthy, h0]
    simp [getUsageUpdates, bind_none_of_forall (spellStep_blocked hblocked)]
  · intro u
    simp only [spellStep, hlvl, hslot, htruthy, Bool.and_self, if_pos rfl]
    split
    · simp_all
    · simp_all
  · intro u u' h
    simp only [spellStep, hlvl, hslot, htruthy, Bool.and_self, if_true] at h
    by_cases h0 : (actor.spells.lookup lvl.key).getD 0 = 0
    · rw [if_pos h0] at h
      cases h
    · rw [if_neg h0] at h
      injection h with h
      exact ⟨h0, h.symm⟩

/-- C9 witness: with one level-3 slot the step consumes it (pool set to 0);
with zero pact slots the whole resolution fails. -/
theorem claim_C9_spell_slot_consumption_witness :
    (spellStep { spells := [("spell3", 1)] }
        { consumeSpellSlot := true, consumeSpellLevel := some (.num 3) } {}
        = none ↔ (0 : Int) = 0) = False
    ∧ getUsageUpdates {} { spells := [("pact", 0)] }
        { consumeSpellSlot := true, consumeSpellLevel := some (.str "pact") } = none := by
  constructor
  · have h := (claim_C9_spell_slot_consumption {} { spells := [("spell3", 1)] }
      { consumeSpellSlot := true, consumeSpellLevel := some (.num 3) }
      (.num 3) rfl rfl (by decide)).2.1 {}
    simp only [eq_iff_iff, iff_false]
    intro hiff
    have h1 := h.symm.trans hiff
    simp at h1
    have : ((([("spell3", (1 : Int))] : List (String × Int)).lookup
        (ConsumeLevel.num 3).key).getD 0) = 1 := by decide
    rw [this] at h1
    revert h1
    decide
  · exact (claim_C9_spell_slot_consumption {} { spells := [("pact", 0)] }
      { consumeSpellSlot := true, consumeSpellLevel := some (.str "pact") }
      (.str "pact") rfl rfl (by decide)).1 (by decide)

/-- C10: when `consumeSpellSlot` is set but `consumeSpellLevel` is falsy
(`null`, the number 0, or the empty string), the spell-slot step is silently
skipped: it passes the buckets through unchanged, and the whole resolution
behaves exactly as if `consumeSpellSlot` were off — it neither fails on
spell slots nor touches any pool, and can still succeed with the other
steps' updates. -/
theorem claim_C10_falsy_spell_level_skipped (it : ItemState) (actor : Actor)
    (cfg : UsageConfig) (h : levelTruthy cfg.consumeSpellLevel = false) :
    (∀ u, spellStep actor cfg u = some u)
    ∧ getUsageUpdates it actor cfg
        = getUsageUpdates it actor { cfg with consumeSpellSlot := false } := by
  have hstep : ∀ u, spellStep actor cfg u = some u := by
    intro u
    cases hlvl : cfg.consumeSpellLevel with
    | none => simp [spellStep, hlvl]
    | some lvl =>
      rw [hlvl] at h
      simp only [levelTruthy] at h
      simp [spellStep, hlvl, h]
  have hstep' : ∀ u, spellStep actor { cfg with consumeSpellSlot := false } u = some u := by
    intro u
    cases hlvl : cfg.consumeSpellLevel with
    | none => simp [spellStep, hlvl]
    | some lvl => simp [spellStep, hlvl]
  refine ⟨hstep, ?_⟩
  simp only [getUsageUpdates]
  have hrecharge : rechargeStep it { cfg with consumeSpellSlot := false }
      = rechargeStep it cfg := by
    funext u
    simp [rechargeStep]
  have hresource : resourceStep it actor { cfg with consumeSpellSlot := false }
      = resourceStep it actor cfg := by
    funext u
    simp [resourceStep]
  have husage : usageStep it { cfg with consumeSpellSlot := false }
      = usageStep it cfg := by
    funext u
    simp [usageStep]
  rw [hrecharge, hresource, husage]
  congr 1
  cases (rechargeStep it cfg {}).bind (resourceStep it actor cfg) with
  | none => simp
  | some u => simp [hstep, hstep']

/-- C10 witness: with `consumeSpellLevel = null` and `consumeSpellSlot`
requested, the step passes buckets through, the resolution matches the one
with slot consumption off, and a use still succeeds consuming only a limited
use. -/
theorem claim_C10_falsy_spell_level_skipped_witness :
    spellStep {}
      { consumeSpellSlot := true, consumeUsage := true } {} = some {}
    ∧ getUsageUpdates { uses := some { value := 2, max := some 2, per := "day" } } {}
        { consumeSpellSlot := true, consumeUsage := true }
      = getUsageUpdates { uses := some { value := 2, max := some 2, per := "day" } } {}
        { consumeSpellSlot := false, consumeUsage := true }
    ∧ getUsageUpdates { uses := some { value := 2, max := some 2, per := "day" } } {}
        { consumeSpellSlot := true, consumeUsage := true }
      = some { itemUpdates := { usesValue := some 1 } } :=
  ⟨(claim_C10_falsy_spell_level_skipped {} {}
      { consumeSpellSlot := true, consumeUsage := true } (by decide)).1 {},
   (claim_C10_falsy_spell_level_skipped
      { uses := some { value := 2, max := some 2, per := "day" } } {}
      { consumeSpellSlot := true, consumeUsage := true } (by decide)).2,
   by decide⟩

/-! ## C6: hit-dice consumption across classes -/

theorem aggregateHitDice_go (l : List ClassItem) (a : Int) :
    l.foldl (fun c cls => c + cls.levels - cls.hitDiceUsed) a
      = a + aggregateHitDice l := by
  induction l generalizing a with
  | nil => simp [aggregateHitDice]
  | cons x xs ih =>
    simp only [aggregateHitDice, List.foldl_cons]
    rw [ih, ih (0 + x.levels - x.hitDiceUsed)]
    ring

theorem aggregateHitDice_cons (x : ClassItem) (xs : List ClassItem) :
    aggregateHitDice (x :: xs)
      = x.levels - x.hitDiceUsed + aggregateHitDice xs := by
  have h : aggregateHitDice (x :: xs)
      = xs.foldl (fun c cls => c + cls.levels - cls.hitDiceUsed)
          (0 + x.levels - x.hitDiceUsed) := rfl
  rw [h, aggregateHitDice_go]
  ring

theorem hitDiceDelta_pos {t : Int} (cls : ClassItem) (h : 0 < t) :
    hitDiceDelta cls t = min t (cls.levels - cls.hitDiceUsed) := by
  simp [hitDiceDelta, h]

theorem hitDiceLoop_cons (cls : ClassItem) (rest : List ClassItem) (t : Int) :
    hitDiceLoop (cls :: rest) (some t)
      = if hitDiceDelta cls t = 0 then hitDiceLoop rest (some t)
        else if t - hitDiceDelta cls t = 0 then
          [.hitDiceUsed cls.id (some (cls.hitDiceUsed + hitDiceDelta cls t))]
        else .hitDiceUsed cls.id (some (cls.hitDiceUsed + hitDiceDelta cls t))
          :: hitDiceLoop rest (some (t - hitDiceDelta cls t)) := rfl

/-- The hit-dice value a resource update carries for a given class: the new
`hitDiceUsed` when the update addresses that class, else nothing. -/
def hitDiceUpdateVal (cls : ClassItem) : ResourceUpdate → Option Int
  | .hitDiceUsed i (some v) => if i = cls.id then some v else none
  | _ => none

/-- How many hit dice a list of resource updates consumes from a class: the
first update addressed to it minus its prior `hitDiceUsed`, 0 when none. -/
def consumedOf (upds : List ResourceUpdate) (cls : ClassItem) : Int :=
  match upds.findSome? (hitDiceUpdateVal cls) with
  | some v => v - cls.hitDiceUsed
  | none => 0

theorem consumedOf_cons_of_val_none {u : ResourceUpdate} {cls : ClassItem}
    (h : hitDiceUpdateVal cls u = none) (upds : List ResourceUpdate) :
    consumedOf (u :: upds) cls = consumedOf upds cls := by
  simp [consumedOf, List.findSome?_cons, h]

theorem consumedOf_cons_self (cls : ClassItem) (v : Int)
    (upds : List ResourceUpdate) :
    consumedOf (.hitDiceUsed cls.id (some v) :: upds) cls
      = v - cls.hitDiceUsed := by
  simp [consumedOf, List.findSome?_cons, hitDiceUpdateVal]

theorem hitDiceLoop_ids {classes : List ClassItem} {t : Int} {i : String}
    {v : Option Int}
    (h : ResourceUpdate.hitDiceUsed i v ∈ hitDiceLoop classes (some t)) :
    i ∈ classes.map (fun c => c.id) := by
  induction classes generalizing t with
  | nil => simp [hitDiceLoop] at h
  | cons cls rest ih =>
    rw [hitDiceLoop_cons] at h
    by_cases h0 : hitDiceDelta cls t = 0
    · rw [if_pos h0] at h
      exact List.mem_cons_of_mem _ (ih h)
    · rw [if_neg h0] at h
      by_cases h1 : t - hitDiceDelta cls t = 0
      · rw [if_pos h1] at h
        rcases List.mem_singleton.mp h with h
        injection h with h2 h3
        subst h2
        exact List.mem_cons_self _ _
      · rw [if_neg h1] at h
        rcases List.mem_cons.mp h with h | h
        · injection h with h2 h3
          subst h2
          exact List.mem_cons_self _ _
        · exact List.mem_cons_of_mem _ (ih h)

theorem consumedOf_eq_zero {upds : List ResourceUpdate} {cls : ClassItem}
    (h : ∀ i v, ResourceUpdate.hitDiceUsed i v ∈ upds → i ≠ cls.id) :
    consumedOf upds cls = 0 := by
  induction upds with
  | nil => rfl
  | cons u us ih =>
    have hrest : consumedOf us cls = 0 :=
      ih (fun i v hm => h i v (List.mem_cons_of_mem _ hm))
    cases u with
    | hitDiceUsed i v =>
      have hne : i ≠ cls.id := h i v (List.mem_cons_self _ _)
      have hval : hitDiceUpdateVal cls (.hitDiceUsed i v) = none := by
        cases v <;> simp [hitDiceUpdateVal, hne]
      rw [consumedOf_cons_of_val_none hval, hrest]
    | quantity i v =>
      rw [@consumedOf_cons_of_val_none (.quantity i v) cls rfl, hrest]
    | usesValue i v =>
      rw [@consumedOf_cons_of_val_none (.usesValue i v) cls rfl, hrest]
    | rechargeCharged i v =>
      rw [@consumedOf_cons_of_val_none (.rechargeCharged i v) cls rfl, hrest]
    | idOnly i =>
      rw [@consumedOf_cons_of_val_none (.idOnly i) cls rfl, hrest]

/-- The hit-dice loop consumes exactly the requested (positive, covered)
amount: summed over the classes, the per-class consumption is the request,
each class is charged at least 0 and at most its own `levels -
hitDiceUsed`. -/
theorem hitDiceLoop_consumes {classes : List ClassItem} {t : Int}
    (hnodup : (classes.map (fun c => c.id)).Nodup)
    (hbound : ∀ cls ∈ classes, cls.hitDiceUsed ≤ cls.levels)
    (hpos : 0 < t) (hagg : t ≤ aggregateHitDice classes) :
    ((classes.map (consumedOf (hitDiceLoop classes (some t)))).sum = t)
    ∧ ∀ cls ∈ classes,
        0 ≤ consumedOf (hitDiceLoop classes (some t)) cls
        ∧ consumedOf (hitDiceLoop classes (some t)) cls
            ≤ cls.levels - cls.hitDiceUsed := by
  induction classes generalizing t with
  | nil =>
    simp [aggregateHitDice] at hagg
    omega
  | cons cls rest ih =>
    have havail : 0 ≤ cls.levels - cls.hitDiceUsed := by
      have := hbound cls (List.mem_cons_self _ _)
      omega
    have hid : cls.id ∉ rest.map (fun c => c.id) := by
      simp only [List.map_cons, List.nodup_cons] at hnodup
      exact hnodup.1
    have hnodup' : (rest.map (fun c => c.id)).Nodup := by
      simp only [List.map_cons, List.nodup_cons] at hnodup
      exact hnodup.2
    have hbound' : ∀ c ∈ rest, c.hitDiceUsed ≤ c.levels :=
      fun c hc => hbound c (List.mem_cons_of_mem _ hc)
    have hagg' : t ≤ cls.levels - cls.hitDiceUsed + aggregateHitDice rest := by
      rw [aggregateHitDice_cons] at hagg
      exact hagg
    have hd : hitDiceDelta cls t = min t (cls.levels - cls.hitDiceUsed) :=
      hitDiceDelta_pos cls hpos
    rw [hitDiceLoop_cons, hd]
    by_cases hdelta : min t (cls.levels - cls.hitDiceUsed) = 0
    · -- this class has no available dice: skip it
      have havail0 : cls.levels - cls.hitDiceUsed = 0 := by
        rcases min_eq_iff.mp hdelta with ⟨h1, _⟩ | ⟨h1, _⟩ <;> omega
      rw [if_pos hdelta]
      have hz : consumedOf (hitDiceLoop rest (some t)) cls = 0 := by
        refine consumedOf_eq_zero (fun i v hm => ?_)
        intro he
        exact hid (he ▸ hitDiceLoop_ids hm)
      rcases ih hnodup' hbound' hpos (by omega) with ⟨hsum, hb⟩
      constructor
      · simp only [List.map_cons, List.sum_cons, hz, hsum]
        ring
      · intro c hc
        rcases List.mem_cons.mp hc with hc | hc
        · subst hc
          rw [hz]
          omega
        · exact hb c hc
    · rw [if_neg hdelta]
      by_cases hbreak : t - min t (cls.levels - cls.hitDiceUsed) = 0
      · -- the request is fully covered by this class
        have hdt : min t (cls.levels - cls.hitDiceUsed) = t := by omega
        rw [if_pos hbreak, hdt]
        have hself : consumedOf [ResourceUpdate.hitDiceUsed cls.id
            (some (cls.hitDiceUsed + t))] cls = t := by
          rw [consumedOf_cons_self]
          ring
        have hzrest : ∀ c ∈ rest,
            consumedOf [ResourceUpdate.hitDiceUsed cls.id
              (some (cls.hitDiceUsed + t))] c = 0 := by
          intro c hc
          refine consumedOf_eq_zero (fun i v hm => ?_)
          rcases List.mem_singleton.mp hm with h
          injection h with h1 h2
          subst h1
          intro he
          exact hid (he ▸ List.mem_map_of_mem (fun c => c.id) hc)
        constructor
        · simp only [List.map_cons, List.sum_cons, hself]
          have hrest0 : (rest.map (consumedOf [ResourceUpdate.hitDiceUsed cls.id
              (some (cls.hitDiceUsed + t))])).sum = 0 := by
            refine List.sum_eq_zero (fun x hx => ?_)
            rcases List.mem_map.mp hx with ⟨c, hc, hcx⟩
            rw [← hcx]
            exact hzrest c hc
          rw [hrest0]
          ring
        · intro c hc
          rcases List.mem_cons.mp hc with hc | hc
          · subst hc
            rw [hself]
            constructor
            · omega
            · have := min_le_right t (c.levels - c.hitDiceUsed)
              omega
          · rw [hzrest c hc]
            have := hbound' c hc
            omega
      · -- this class is exhausted and the loop spills over to the rest
        have hdt : min t (cls.levels - cls.hitDiceUsed)
            = cls.levels - cls.hitDiceUsed := by omega
        rw [if_neg hbreak, hdt]
        have havailpos : 0 < cls.levels - cls.hitDiceUsed := by omega
        have htrest : 0 < t - (cls.levels - cls.hitDiceUsed) := by omega
        have haggrest : t - (cls.levels - cls.hitDiceUsed)
            ≤ aggregateHitDice rest := by omega
        rcases ih hnodup' hbound' htrest haggrest with ⟨hsum, hb⟩
        have hself : consumedOf (ResourceUpdate.hitDiceUsed cls.id
              (some (cls.hitDiceUsed + (cls.levels - cls.hitDiceUsed)))
            :: hitDiceLoop rest (some (t - (cls.levels - cls.hitDiceUsed)))) cls
            = cls.levels - cls.hitDiceUsed := by
          rw [consumedOf_cons_self]
          ring
        have hcons : ∀ c ∈ rest,
            consumedOf (ResourceUpdate.hitDiceUsed cls.id
                (some (cls.hitDiceUsed + (cls.levels - cls.hitDiceUsed)))
              :: hitDiceLoop rest (some (t - (cls.levels - cls.hitDiceUsed)))) c
            = consumedOf (hitDiceLoop rest
                (some (t - (cls.levels - cls.hitDiceUsed)))) c := by
          intro c hc
          refine consumedOf_cons_of_val_none ?_ _
          have hne : cls.id ≠ c.id := by
            intro he
            exact hid (he ▸ List.mem_map_of_mem (fun c => c.id) hc)
          simp [hitDiceUpdateVal, hne]
        constructor
        · simp only [List.map_cons, List.sum_cons, hself]
          have hmap : (rest.map (consumedOf (ResourceUpdate.hitDiceUsed cls.id
                (some (cls.hitDiceUsed + (cls.levels - cls.hitDiceUsed)))
              :: hitDiceLoop rest (some (t - (cls.levels - cls.hitDiceUsed)))))).sum
              = (rest.map (consumedOf (hitDiceLoop rest
                  (some (t - (cls.levels - cls.hitDiceUsed)))))).sum := by
            refine congrArg List.sum ?_
            exact List.map_congr_left hcons
          rw [hmap, hsum]
          ring
        · intro c hc
          rcases List.mem_cons.mp hc with hc | hc
          · subst hc
            rw [hself]
            omega
          · rw [hcons c hc]
            exact hb c hc

/-- The C6 example item: consumes 3 hit dice with the `"smallest"` target. -/
def c6item : ItemState :=
  { consume := some { ctype := some ConsumeType.hitDice, target := "smallest",
                      amount := some 3 } }

/-- The C6 example actor: classes (d8, levels 4, used 1) and (d6, levels 2,
used 0). -/
def c6actor : Actor :=
  { classes := [{ id := "clsA", hitDice := "d8", levels := 4, hitDiceUsed := 1 },
                { id := "clsB", hitDice := "d6", levels := 2, hitDiceUsed := 0 }] }

/-- An item requesting more hit dice than the C6 actor has available. -/
def c6failItem : ItemState :=
  { consume := some { ctype := some ConsumeType.hitDice, target := "smallest",
                      amount := some 10 } }

/-- C6: hit-dice consumption charges the (optionally filtered and sorted)
classes in order until the requested amount is met — for any class list with
distinct ids, non-negative per-class capacity and a positive request covered
by the aggregate `(levels - hitDiceUsed)`, the loop consumes exactly the
requested total and never charges a class more than its own capacity (nor
restores dice); the resolution fails with no updates when the aggregate is
below the request; concretely, classes (levels 4, used 1) and (levels 2,
used 0) sorted smallest-first with a request of 3 consume both of the d6
class's 2 dice and 1 of the d8 class's dice, a total of exactly 3. -/
theorem claim_C6_hit_dice_consumption :
    (∀ (classes : List ClassItem) (t : Int),
      (classes.map (fun c => c.id)).Nodup →
      (∀ cls ∈ classes, cls.hitDiceUsed ≤ cls.levels) →
      0 < t → t ≤ aggregateHitDice classes →
      ((classes.map (consumedOf (hitDiceLoop classes (some t)))).sum = t)
      ∧ ∀ cls ∈ classes,
          0 ≤ consumedOf (hitDiceLoop classes (some t)) cls
          ∧ consumedOf (hitDiceLoop classes (some t)) cls
              ≤ cls.levels - cls.hitDiceUsed)
    ∧ (∀ (it : ItemState) (actor : Actor) (cfg : UsageConfig) (c : ConsumeData),
        cfg.consumeResource = true →
        it.consume = some c →
        c.ctype = some ConsumeType.hitDice →
        c.target ≠ "" →
        hitDiceQuantity actor c.target - c.amount.getD 1 < 0 →
        getUsageUpdates it actor cfg = none)
    ∧ getUsageUpdates c6item c6actor { consumeResource := true }
        = some { resourceUpdates := [.hitDiceUsed "clsB" (some 2),
                                     .hitDiceUsed "clsA" (some 2)] } := by
  refine ⟨?_, ?_, ?_⟩
  · intro classes t hnodup hbound hpos hagg
    exact hitDiceLoop_consumes hnodup hbound hpos hagg
  · intro it actor cfg c hres hcons hct htgt hqty
    have hblocked : consumeBlocked it actor = true := by
      simp only [consumeBlocked, hcons, Option.getD_some, hct]
      simp [htgt, hqty]
    have hstep : ∀ u, resourceStep it actor cfg u = none := by
      intro u
      simp [resourceStep, hres, handleConsumeResource_blocked hblocked]
    simp [getUsageUpdates, bind_none_of_forall hstep]
  · simp [getUsageUpdates, rechargeStep, resourceStep, spellStep, usageStep,
      handleConsumeResource, c6item, c6actor, hitDiceQuantity, hitDiceResource,
      aggregateHitDice, isHitDiceKeyword, sortClasses, List.mergeSort, List.merge,
      hitDiceCompare, numericCompare, splitDigitPrefix, digitsVal, hitDiceLoop,
      hitDiceDelta]

/-- C6 witness: the loop theorem applied to the sorted concrete classes with
a request of 3 (total consumed exactly 3), and the failure path applied to a
request of 10 against 5 available. -/
theorem claim_C6_hit_dice_consumption_witness :
    ((([{ id := "clsB", hitDice := "d6", levels := 2, hitDiceUsed := 0 },
        { id := "clsA", hitDice := "d8", levels := 4, hitDiceUsed := 1 }]
          : List ClassItem).map
        (consumedOf (hitDiceLoop
          [{ id := "clsB", hitDice := "d6", levels := 2, hitDiceUsed := 0 },
           { id := "clsA", hitDice := "d8", levels := 4, hitDiceUsed := 1 }]
          (some 3)))).sum = 3)
    ∧ getUsageUpdates c6failItem c6actor { consumeResource := true } = none :=
  ⟨(claim_C6_hit_dice_consumption.1
      [{ id := "clsB", hitDice := "d6", levels := 2, hitDiceUsed := 0 },
       { id := "clsA", hitDice := "d8", levels := 4, hitDiceUsed := 1 }] 3
      (by decide) (by decide) (by decide) (by decide)).1,
   claim_C6_hit_dice_consumption.2.1 c6failItem c6actor { consumeResource := true }
     { ctype := some ConsumeType.hitDice, target := "smallest", amount := some 10 }
     rfl rfl rfl (by decide) (by decide)⟩

end Dnd5e
